import Mathlib

/-!
Verification of the burqdb storage engine against its specification.

The development shallowly embeds the Rust sources:
  src/lib/storage/cell.rs          (Cell, live code)
  src/lib/storage/slotted_page.rs  (SlottedPage draft, committed fully commented out)
  src/lib/io/file.rs               (DbFile, live code)
  src/lib/io/file_manager.rs       (FileManager, live code)

Machine integers are modelled as Nat with explicit truncation (`% 65536` for
a Rust `as u16` cast) and explicit bounds checks for arithmetic: debug-build
semantics, where an overflowing or underflowing add/sub panics.  Panics are
modelled as the error side of an Except value.
-/

deriving instance DecidableEq for Except

namespace Burq

/-- Error taxonomy: the anyhow error strings and std io errors that the code
    can return as Result::Err values. -/
inductive DbError where
  | notEnoughSpace
  | noSuchKey
  | ioError
  | alreadyExists
  deriving DecidableEq, Repr

/-- Panic events of debug-build Rust: arithmetic wrap, out-of-bounds index,
    Option::unwrap on None, and exhausted loop fuel (never hit in any run with
    the fuel our wrappers pass). -/
inductive PanicE where
  | underflow
  | overflow
  | indexOOB
  | unwrapNone
  | fuelOut
  deriving DecidableEq, Repr

/-- Debug-semantics check that a u16 addition or multiplication result stays
    in range; a Rust debug build panics past 65535. -/
def u16chk (n : Nat) : Except PanicE Nat :=
  if n < 65536 then .ok n else .error .overflow

/-- Debug-semantics u16 subtraction: panics when the subtrahend exceeds the
    minuend. -/
def u16sub (a b : Nat) : Except PanicE Nat :=
  if b ≤ a then .ok (a - b) else .error .underflow

/-- Truncating cast, Rust `as u16`. -/
def asU16 (n : Nat) : Nat := n % 65536

/-! ### Cell  (src/lib/storage/cell.rs, live code)

The Rust struct is generic over key and value types that implement
serde Serialize/Deserialize; the encoding of each component is the bincode
standard encoding.  We keep the ops generic over the two component encoders
`encK : K → List Nat` and `encV : V → List Nat` (byte lists), exactly as the
Rust code is generic over the Serialize instances. -/

/-- Cell: a key, a value, and the memoized encoded size
    (field cached_size, serde-skipped, initialised to None). -/
structure Cell (K V : Type) where
  key : K
  value : V
  cached_size : Option Nat
  deriving DecidableEq, Repr

namespace Cell

/-- Cell::new — wraps the fields in Ok; the Result signature can never carry
    an error (claim C10). -/
def new {K V : Type} (key : K) (value : V) : Except DbError (Cell K V) :=
  .ok { key := key, value := value, cached_size := none }

/-- Cell::_serialize — encodes the key, encodes the value, and concatenates
    the two byte vectors.  The line that would have written a u32
    little-endian length before the key bytes is commented out in the source
    (cell.rs line 37), so no length tag of its own is added by this layer. -/
def _serialize {K V : Type} (encK : K → List Nat) (encV : V → List Nat)
    (c : Cell K V) : List Nat :=
  encK c.key ++ encV c.value

/-- Cell::size — returns the cached size when present, otherwise serializes
    once, stores the length in cached_size and returns it.  The Rust method
    takes &mut self; we return the updated cell alongside the result. -/
def size {K V : Type} (encK : K → List Nat) (encV : V → List Nat)
    (c : Cell K V) : Cell K V × Nat :=
  match c.cached_size with
  | none =>
      let n := (_serialize encK encV c).length
      ({ c with cached_size := some n }, n)
  | some n => (c, n)

end Cell

/-! Concrete component encoders used to instantiate the generic code on the
types the source's tests use.  They model the bincode standard encoding for
the small inputs we evaluate on: a string of length below 251 encodes as one
length byte followed by its bytes, and an i32 of small magnitude encodes as
one zigzag varint byte. -/

/-- Bincode standard encoding of a byte string of length below 251:
    one length byte, then the payload bytes. -/
def encBytes (l : List Nat) : List Nat := l.length :: l

/-- Bincode standard encoding of a small signed integer: a single zigzag
    varint byte (valid for zigzag values below 251). -/
def encI32 (n : Int) : List Nat :=
  [(if 0 ≤ n then 2 * n else -2 * n - 1).toNat]

/-- Bincode-style encoding of an ASCII string: one length byte followed by
    one byte per character (valid for length below 251). -/
def encStr (s : String) : List Nat :=
  s.length :: s.data.map Char.toNat

/-- One-byte encoding of a small natural number key (models a serde type
    whose bincode encoding is a single byte). -/
def encNat1 (n : Nat) : List Nat := [n % 256]

/-- Padding encoder: a value n encodes to n zero bytes.  Models a serde type
    whose bincode encoding has length n; used to build cells of a chosen
    encoded size in concrete scenarios. -/
def encPad (n : Nat) : List Nat := List.replicate n 0

/-- Little-endian u32 length tag, the four bytes the commented-out line of
    cell.rs (line 37) would have written before the key bytes. -/
def u32le (n : Nat) : List Nat :=
  [n % 256, n / 256 % 256, n / 2 ^ 16 % 256, n / 2 ^ 24 % 256]

/-- Modelled from the spec: the cell encoding as the spec sentence states
    it, with each of the key bytes and the value bytes preceded by its own
    length tag.  Used only for comparison with the code's _serialize. -/
def serializeSpec {K V : Type} (encK : K → List Nat) (encV : V → List Nat)
    (c : Cell K V) : List Nat :=
  u32le (encK c.key).length ++ encK c.key
    ++ u32le (encV c.value).length ++ encV c.value

/-- Decoder for a buffer holding two back-to-back bincode byte strings
    (one length byte then payload, for payloads shorter than 251): reads the
    key, then requires the remainder to be exactly one encoded value. -/
def decodeKV (bs : List Nat) : Option (List Nat × List Nat) :=
  match bs with
  | [] => none
  | n :: rest =>
      if n ≤ rest.length then
        match rest.drop n with
        | [] => none
        | m :: rest2 => if m = rest2.length then some (rest.take n, rest2) else none
      else none

/-! ### Page file I/O  (src/lib/io/file.rs, live code)

The file is modelled as a byte list plus a volatile-cache flag: a write
leaves pending = true unless it was flushed by sync_all.  seek past the end
of file followed by a write produces a zero-filled gap, as on a POSIX file. -/

/-- PageSize constant of file.rs (4096). -/
def PageSize : Nat := 4096

/-- size_of::<DBHeader> on a 64-bit target: the struct holds one
    &'static str, a 16-byte fat pointer. -/
def DBHeaderSize : Nat := 16

/-- In-memory model of the open file: its bytes, and whether the last write
    still sits in the volatile cache (not yet forced to stable storage). -/
structure FileState where
  data : List Nat
  pending : Bool
  deriving DecidableEq, Repr

/-- DbFile configuration: the forced_sync flag given to DbFile::new. -/
structure DbFile where
  forced_sync : Bool
  deriving DecidableEq, Repr

/-- DbFile::seek — the byte offset for a page id:
    size_of::<DBHeader>() + page_id * PageSize. -/
def seekOffset (page_id : Nat) : Nat := DBHeaderSize + page_id * PageSize

/-- DbFile::read_page — seeks to the page's offset and read_exacts PageSize
    bytes into a Frame; read_exact fails with an io error when fewer than
    PageSize bytes remain (short read). -/
def read_page (st : FileState) (page_id : Nat) : Except DbError (List Nat) :=
  let off := seekOffset page_id
  if off + PageSize ≤ st.data.length then
    .ok ((st.data.drop off).take PageSize)
  else .error .ioError

/-- DbFile::write_page — seeks to the page's offset and write_alls the given
    buffer (whatever its length); when forced_sync is set, sync_all flushes
    the file to stable storage before returning. -/
def write_page (f : DbFile) (st : FileState) (page_id : Nat) (data : List Nat) :
    FileState × Except DbError Unit :=
  let off := seekOffset page_id
  let padded := st.data ++ List.replicate (off - st.data.length) 0
  let newData := padded.take off ++ data ++ padded.drop (off + data.length)
  ({ data := newData, pending := !f.forced_sync }, .ok ())

/-! ### File registry  (src/lib/io/file_manager.rs, live code)

The filesystem is modelled as the list of paths that exist.  The create_new
open is modelled generously: error AlreadyExists when the path exists, and
successful creation otherwise.  (In the real code even the success case
cannot create a file: the OpenOptions lack write access, so the open call
fails for every input; the generous model makes the proved divergence an
understatement, not an artifact.) -/

/-- DB_EXTENTION constant of file_manager.rs. -/
def DB_EXTENTION : String := "bd"

/-- Path joining as FileManager does it: path.join(format!("{}.{}", name, ext)). -/
def dbFilePath (path name : String) : String :=
  path ++ "/" ++ name ++ "." ++ DB_EXTENTION

/-- Model of the filesystem: the set of existing file paths. -/
structure Fs where
  files : List String
  deriving DecidableEq, Repr

/-- Model of OpenOptions::new().create_new(true).open(p). -/
def openCreateNew (fs : Fs) (p : String) : Fs × Except DbError Unit :=
  if p ∈ fs.files then (fs, .error .alreadyExists)
  else ({ files := p :: fs.files }, .ok ())

/-- FileManager::create — builds directory/name.bd, performs the create_new
    open, binds its Result to the wildcard `let _ =` (discarding any error),
    and returns Ok(()) unconditionally. -/
def FileManager.create (fs : Fs) (path name : String) : Fs × Except DbError Unit :=
  let r := openCreateNew fs (dbFilePath path name)
  (r.1, .ok ())

/-! ### Slotted page  (src/lib/storage/slotted_page.rs)

The slotted-page implementation is committed fully commented out; the claims
cite its lines, so the draft is embedded as written.  Two inconsistencies of
the draft are carried over verbatim rather than repaired:

* the struct declares a field `freeblocks: Vec<FreeBlock>` which can_insert
  scans and shrinks, while remove, insert's Occupied arm and the tests use a
  field `free_list` (a vector of sizes) that the struct never declares; the
  embedding carries both, each initialised empty;
* in can_insert the draft's `.and_then(f)` names an undefined `f`; from its
  use the only reading is the identity on the found (index, block) pair and
  it is embedded as such.

The draft is generic over key and value types with serde instances and a key
Ord; the embedding is generic over the component encoders and a linear order
on keys, as for Cell above.  u16 arithmetic uses debug-build semantics
(panic on wrap), and the HashMap of cells keyed by u16 offsets is an
association list with at most one entry per offset. -/

/-- PAGE_SIZE constant of the slotted-page draft (4095). -/
def PAGE_SIZE : Nat := 4095

/-- Page kind: leaf or internal. -/
inductive PageType where
  | Leaf
  | Internal
  deriving DecidableEq, Repr

/-- Page header.  The draft's right-sibling field (`Option<Box<SlottedPage>>`)
    is never read or written by any operation and every construction passes
    None, so it carries no state here. -/
structure PageHeader where
  page_type : PageType
  page_id : Nat
  page_size : Nat
  offset : Nat
  first_freeblock : Nat
  deriving DecidableEq, Repr

/-- size_of::<PageHeader<K, V>> on a 64-bit target: u64 page id (8) +
    Option<Box<_>> niche pointer (8) + three u16 (6) + one-byte enum,
    padded to alignment 8 = 24 bytes. -/
def PageHeaderSize : Nat := 24

/-- FreeBlock of the draft: an (offset, size) pair. -/
structure FreeBlock where
  offset : Nat
  size : Nat
  deriving DecidableEq, Repr

/-- The slotted page state. -/
structure SlottedPage (K V : Type) where
  header : PageHeader
  offsets : List Nat
  cells : List (Nat × Cell K V)
  freeblocks : List FreeBlock
  free_list : List Nat
  deriving DecidableEq, Repr

/-- HashMap::get on the offset-keyed cell map. -/
def hmLookup {K V : Type} (m : List (Nat × Cell K V)) (o : Nat) : Option (Cell K V) :=
  (m.find? (fun p => p.1 == o)).map Prod.snd

/-- HashMap::remove (the mapping removal; the returned value is read via
    hmLookup first). -/
def hmErase {K V : Type} (m : List (Nat × Cell K V)) (o : Nat) : List (Nat × Cell K V) :=
  m.filter (fun p => !(p.1 == o))

/-- HashMap::insert. -/
def hmInsert {K V : Type} (m : List (Nat × Cell K V)) (o : Nat) (c : Cell K V) :
    List (Nat × Cell K V) :=
  (o, c) :: hmErase m o

/-- Key of the cell stored at offset o, defaulting when the offset is
    unmapped.  The Rust comparator unwraps instead; every page we reason
    about keeps all directory offsets mapped, making the default dead. -/
def keyAtD {K V : Type} [Inhabited K] (m : List (Nat × Cell K V)) (o : Nat) : K :=
  ((hmLookup m o).map Cell.key).getD default

/-- Comparator of the directory sort: keys of the referenced cells. -/
def keyLe {K V : Type} [LinearOrder K] [Inhabited K]
    (m : List (Nat × Cell K V)) (a b : Nat) : Prop :=
  keyAtD m a ≤ keyAtD m b

instance {K V : Type} [LinearOrder K] [Inhabited K] (m : List (Nat × Cell K V)) :
    DecidableRel (keyLe m) :=
  fun a b => inferInstanceAs (Decidable (keyAtD m a ≤ keyAtD m b))

instance {K V : Type} [LinearOrder K] [Inhabited K] (m : List (Nat × Cell K V)) :
    IsTotal Nat (keyLe m) :=
  ⟨fun a b => le_total (keyAtD m a) (keyAtD m b)⟩

instance {K V : Type} [LinearOrder K] [Inhabited K] (m : List (Nat × Cell K V)) :
    IsTrans Nat (keyLe m) :=
  ⟨fun _ _ _ h1 h2 => le_trans h1 h2⟩

/-- Vec::sort_by with the key comparator: a stable sort, modelled by
    insertion sort (stable sorts of a total preorder agree pointwise). -/
def sortOffsets {K V : Type} [LinearOrder K] [Inhabited K]
    (m : List (Nat × Cell K V)) (offs : List Nat) : List Nat :=
  offs.insertionSort (keyLe m)

/-- Position returned by can_insert: tail allocation of a given size, or a
    free-list location. -/
inductive Position where
  | Free (n : Nat)
  | Occupied (n : Nat)
  deriving DecidableEq, Repr

namespace SlottedPage

variable {K V : Type} [LinearOrder K] [Inhabited K]
variable (encK : K → List Nat) (encV : V → List Nat)

/-- SlottedPage::new — fresh page: empty directory, empty free structures,
    free boundary at PAGE_SIZE. -/
def new (page_id : Nat) (page_type : PageType) : Except DbError (SlottedPage K V) :=
  .ok { header := { page_type := page_type, page_id := page_id, page_size := 0,
                    offset := PAGE_SIZE, first_freeblock := 0 },
        offsets := [], cells := [], freeblocks := [], free_list := [] }

/-- SlottedPage::can_insert — tail test first: the cell fits the tail when
    free boundary minus header side (header size plus the grown directory)
    is at least the cell size plus 2; otherwise first-fit scan of
    freeblocks, shrinking the found block in place when at least 4 bytes
    remain, and answering position required_bytes - block.offset; when no
    block fits, the draft's anyhow error.  Mutates the cell's size cache and
    possibly the found free block. -/
def can_insert (p : SlottedPage K V) (c : Cell K V) :
    Except PanicE (SlottedPage K V × Cell K V × Except DbError Position) := do
  let sc := Cell.size encK encV c
  let c := sc.1
  let required := asU16 sc.2
  let hs ← u16chk (PageHeaderSize + (asU16 p.offsets.length + 1) * 2)
  let tail ← u16sub p.header.offset hs
  let req2 ← u16chk (required + 2)
  if req2 ≤ tail then
    .ok (p, c, .ok (.Free required))
  else
    match p.freeblocks.enum.find? (fun ib => decide (required ≤ ib.2.size)) with
    | some (i, b) =>
        let rem := b.size - required
        let p := if 4 ≤ rem
          then { p with freeblocks := p.freeblocks.set i { b with size := rem } }
          else p
        let posv ← u16sub required b.offset
        .ok (p, c, .ok (.Occupied posv))
    | none => .ok (p, c, .error .notEnoughSpace)

/-- Shared tail of SlottedPage::insert after either allocation arm:
    page_size += 1, then sort the directory by the keys of the cells each
    offset addresses. -/
def insertFinish (p : SlottedPage K V) :
    Except PanicE (SlottedPage K V × Except DbError Unit) := do
  let ps ← u16chk (p.header.page_size + 1)
  .ok ({ p with
            header := { p.header with page_size := ps },
            offsets := sortOffsets p.cells p.offsets }, .ok ())

/-- SlottedPage::insert — builds the cell, asks can_insert, then either
    carves from the tail (free boundary moves down by size + 1, the new
    offset is boundary + 1) or consumes a free_list entry equal to the
    Occupied position (Option::unwrap panic when none matches), pushes the
    new offset and re-sorts the directory. -/
def insert (p : SlottedPage K V) (k : K) (v : V) :
    Except PanicE (SlottedPage K V × Except DbError Unit) := do
  match Cell.new k v with
  | .error e => .ok (p, .error e)
  | .ok c =>
    let pcr ← can_insert encK encV p c
    let p := pcr.1
    let c := pcr.2.1
    match pcr.2.2 with
    | .ok (.Free size) =>
        let s1 ← u16chk (size + 1)
        let off' ← u16sub p.header.offset s1
        let o ← u16chk (off' + 1)
        let ps ← u16chk (p.header.page_size + size)
        insertFinish
          { p with
              header := { p.header with offset := off', page_size := ps },
              offsets := p.offsets ++ [o],
              cells := hmInsert p.cells o c }
    | .ok (.Occupied posv) =>
        match p.free_list.enum.find? (fun ib => ib.2 == posv) with
        | none => .error .unwrapNone
        | some (i, _) =>
            let ps ← u16chk (p.header.page_size + posv)
            insertFinish
              { p with
                  header := { p.header with page_size := ps },
                  free_list := p.free_list.eraseIdx i,
                  offsets := p.offsets ++ [posv],
                  cells := hmInsert p.cells posv c }
    | .error _ => .ok (p, .error .notEnoughSpace)

/-- Loop of SlottedPage::find_key_index — the i32 binary search over the
    directory.  left stays a natural, right is an i32 that may reach -1. -/
def fki_loop (p : SlottedPage K V) (k : K) :
    Nat → Nat → Int → Except PanicE (Option Nat)
  | 0, _, _ => .error .fuelOut
  | fuel + 1, left, right =>
    if (left : Int) ≤ right then
      let mid := (left + right.toNat) / 2
      match p.offsets.get? mid with
      | none => .error .indexOOB
      | some off =>
        match hmLookup p.cells off with
        | none => .error .unwrapNone
        | some c =>
          if c.key = k then .ok (some mid)
          else if c.key < k then fki_loop p k fuel (mid + 1) right
          else fki_loop p k fuel left ((mid : Int) - 1)
    else .ok none

/-- SlottedPage::find_key_index — binary search for the directory index of
    a key; None when no probe matches.  The loop runs at most interval
    width + 1 times, so length + 2 fuel is never exhausted. -/
def find_key_index (p : SlottedPage K V) (k : K) : Except PanicE (Option Nat) :=
  fki_loop p k (p.offsets.length + 2) 0 ((p.offsets.length : Int) - 1)

/-- Loop of SlottedPage::find_key — the u16 binary search that also tracks
    the best lower bound seen.  All index arithmetic is u16 with
    debug-build checks: `right = mid - 1` underflows when mid is 0. -/
def fk_loop (p : SlottedPage K V) (k : K) :
    Nat → Nat → Nat → Option (Cell K V) → Except PanicE (Option (Cell K V))
  | 0, _, _, _ => .error .fuelOut
  | fuel + 1, left, right, res =>
    if left ≤ right then do
      let s ← u16chk (left + right)
      let mid := s / 2
      match p.offsets.get? mid with
      | none => .error .indexOOB
      | some off =>
        match hmLookup p.cells off with
        | none => .error .unwrapNone
        | some c =>
          if c.key = k then .ok (some c)
          else if c.key < k then do
            let l' ← u16chk (mid + 1)
            fk_loop p k fuel l' right (some c)
          else do
            let r' ← u16sub mid 1
            fk_loop p k fuel left r' res
    else .ok res

/-- SlottedPage::find_key — lower-bound search: exact hit returns the cell,
    otherwise the greatest cell with key below the target seen on the
    search path; None when the loop exhausts with no lower bound.  Starts
    with right = len as u16 - 1, an underflow on the empty page. -/
def find_key (p : SlottedPage K V) (k : K) : Except PanicE (Option (Cell K V)) := do
  let r0 ← u16sub (asU16 p.offsets.length) 1
  fk_loop p k (p.offsets.length + 2) 0 r0 none

/-- SlottedPage::remove — find the key's directory index (NotFound error
    when absent), remove the directory entry at that index (shifting later
    entries down), remove the cell from the map, push the cell's size onto
    free_list, and shrink page_size by size + 1. -/
def remove (p : SlottedPage K V) (k : K) :
    Except PanicE (SlottedPage K V × Except DbError Unit) := do
  match ← find_key_index p k with
  | some idx =>
      match p.offsets.get? idx with
      | none => .error .indexOOB
      | some off =>
        match hmLookup p.cells off with
        | none => .error .unwrapNone
        | some c =>
          let sz := (Cell.size encK encV c).2
          let ps1 ← u16sub p.header.page_size (asU16 sz)
          let ps2 ← u16sub ps1 1
          .ok ({ p with
                    offsets := p.offsets.eraseIdx idx,
                    cells := hmErase p.cells off,
                    free_list := p.free_list ++ [sz],
                    header := { p.header with page_size := ps2 } }, .ok ())
  | none => .ok (p, .error .noSuchKey)

end SlottedPage

/-! ### Directory invariant

The spec's slot-directory invariant, specialised to the draft's state: no
free blocks (nothing ever populates freeblocks), strictly ascending keys
along the directory, every directory offset mapped to a cell whose size
cache is correct, every offset above the free boundary, and the page_size
accounting equation. -/

/-- Key list of the directory, in slot order. -/
def pageKeys {K V : Type} [Inhabited K] (p : SlottedPage K V) : List K :=
  p.offsets.map (keyAtD p.cells)

/-- Boolean check that offset o is mapped to a cell with a correct size
    cache. -/
def cellOkB {K V : Type} (encK : K → List Nat) (encV : V → List Nat)
    (m : List (Nat × Cell K V)) (o : Nat) : Bool :=
  match hmLookup m o with
  | some c => c.cached_size == some ((Cell._serialize encK encV c).length)
  | none => false

/-- Truncated encoded size of the cell mapped at offset o (0 if unmapped). -/
def szTAt {K V : Type} (encK : K → List Nat) (encV : V → List Nat)
    (m : List (Nat × Cell K V)) (o : Nat) : Nat :=
  match hmLookup m o with
  | some c => asU16 (Cell._serialize encK encV c).length
  | none => 0

/-- The page invariant maintained by insert and remove (for fresh-key
    inserts). -/
def Inv {K V : Type} [LinearOrder K] [Inhabited K]
    (encK : K → List Nat) (encV : V → List Nat) (p : SlottedPage K V) : Prop :=
  p.freeblocks = [] ∧
  p.offsets.Pairwise (fun a b => keyAtD p.cells a < keyAtD p.cells b) ∧
  (∀ o ∈ p.offsets, cellOkB encK encV p.cells o = true) ∧
  (∀ o ∈ p.offsets, p.header.offset < o) ∧
  p.header.page_size = (p.offsets.map (szTAt encK encV p.cells)).sum + p.offsets.length

instance {K V : Type} [LinearOrder K] [Inhabited K]
    (encK : K → List Nat) (encV : V → List Nat) (p : SlottedPage K V) :
    Decidable (Inv encK encV p) := by
  unfold Inv
  infer_instance

/-- Pages reachable from SlottedPage::new by insert and remove calls that do
    not panic, where every insert uses a key not currently in the directory
    (the fresh-key discipline of the amended claim C1). -/
inductive Reach {K V : Type} [LinearOrder K] [Inhabited K]
    (encK : K → List Nat) (encV : V → List Nat) : SlottedPage K V → Prop where
  | new : ∀ (pid : Nat) (pt : PageType) (p : SlottedPage K V),
      SlottedPage.new pid pt = .ok p → Reach encK encV p
  | ins : ∀ (p p' : SlottedPage K V) (r : Except DbError Unit) (k : K) (v : V),
      Reach encK encV p → k ∉ pageKeys p →
      SlottedPage.insert encK encV p k v = .ok (p', r) → Reach encK encV p'
  | del : ∀ (p p' : SlottedPage K V) (r : Except DbError Unit) (k : K),
      Reach encK encV p →
      SlottedPage.remove encK encV p k = .ok (p', r) → Reach encK encV p'

/-! ### Operation sequences and concrete scenario pages

Page states below are written out as literals; each is produced by the
operation sequence stated in the accompanying theorem, so every scenario
page is reachable from SlottedPage::new by insert/remove alone. -/

/-- One page operation: an insert of a key-value pair or a delete of a key. -/
inductive Op (K V : Type) where
  | ins (k : K) (v : V)
  | del (k : K)

/-- Dispatch one operation to SlottedPage::insert or SlottedPage::remove. -/
def applyOp {K V : Type} [LinearOrder K] [Inhabited K]
    (encK : K → List Nat) (encV : V → List Nat) (p : SlottedPage K V) :
    Op K V → Except PanicE (SlottedPage K V × Except DbError Unit)
  | .ins k v => SlottedPage.insert encK encV p k v
  | .del k => SlottedPage.remove encK encV p k

/-- Run a list of operations left to right, stopping only on a panic
    (a Result error of an individual operation leaves its page state as the
    operation returned it, as in the Rust tests that keep going after a
    failed call). -/
def runOps {K V : Type} [LinearOrder K] [Inhabited K]
    (encK : K → List Nat) (encV : V → List Nat) :
    SlottedPage K V → List (Op K V) → Except PanicE (SlottedPage K V)
  | p, [] => .ok p
  | p, op :: ops => do
      let r ← applyOp encK encV p op
      runOps encK encV r.1 ops

/-- The fresh Nat/Nat page that SlottedPage::new yields. -/
def pEmptyNat : SlottedPage Nat Nat :=
  { header := { page_type := PageType.Leaf, page_id := 0, page_size := 0,
                offset := PAGE_SIZE, first_freeblock := 0 },
    offsets := [], cells := [], freeblocks := [], free_list := [] }

/-- Page after inserting key 5 (cell size 2) into the fresh page. -/
def pDup5a : SlottedPage Nat Nat :=
  { header := { page_type := PageType.Leaf, page_id := 0, page_size := 3,
                offset := 4092, first_freeblock := 0 },
    offsets := [4093],
    cells := [(4093, { key := 5, value := 1, cached_size := some 2 })],
    freeblocks := [], free_list := [] }

/-- Page after inserting key 5 twice (values 1 then 2). -/
def pDup5 : SlottedPage Nat Nat :=
  { header := { page_type := PageType.Leaf, page_id := 0, page_size := 6,
                offset := 4089, first_freeblock := 0 },
    offsets := [4093, 4090],
    cells := [(4090, { key := 5, value := 2, cached_size := some 2 }),
              (4093, { key := 5, value := 1, cached_size := some 2 })],
    freeblocks := [], free_list := [] }

/-- Page after inserting key 7 twice (values 3 then 4). -/
def pDup7 : SlottedPage Nat Nat :=
  { header := { page_type := PageType.Leaf, page_id := 0, page_size := 6,
                offset := 4089, first_freeblock := 0 },
    offsets := [4093, 4090],
    cells := [(4090, { key := 7, value := 4, cached_size := some 2 }),
              (4093, { key := 7, value := 3, cached_size := some 2 })],
    freeblocks := [], free_list := [] }

/-- Page with keys 1, 3, 5, 6 (values 11, 13, 15, 16, cell size 2 each). -/
def pK1356 : SlottedPage Nat Nat :=
  { header := { page_type := PageType.Leaf, page_id := 0, page_size := 12,
                offset := 4083, first_freeblock := 0 },
    offsets := [4093, 4090, 4087, 4084],
    cells := [(4084, { key := 6, value := 16, cached_size := some 2 }),
              (4087, { key := 5, value := 15, cached_size := some 2 }),
              (4090, { key := 3, value := 13, cached_size := some 2 }),
              (4093, { key := 1, value := 11, cached_size := some 2 })],
    freeblocks := [], free_list := [] }

/-- Page whose tail is exhausted by four 1000-byte cells, after deleting
    key 1: a 1000-byte freed block sits in free_list, the free boundary is
    at 91. -/
def pC2pre : SlottedPage Nat Nat :=
  { header := { page_type := PageType.Leaf, page_id := 0, page_size := 3003,
                offset := 91, first_freeblock := 0 },
    offsets := [2094, 1093, 92],
    cells := [(92, { key := 4, value := 999, cached_size := some 1000 }),
              (1093, { key := 3, value := 999, cached_size := some 1000 }),
              (2094, { key := 2, value := 999, cached_size := some 1000 })],
    freeblocks := [], free_list := [1000] }

/-- Page A of the C5 counterexample: keys 10 (size 6) and 20 (size 8); the
    key-20 cell sits at offset 4080. -/
def pA2 : SlottedPage Nat Nat :=
  { header := { page_type := PageType.Leaf, page_id := 0, page_size := 16,
                offset := 4079, first_freeblock := 0 },
    offsets := [4089, 4080],
    cells := [(4080, { key := 20, value := 7, cached_size := some 8 }),
              (4089, { key := 10, value := 5, cached_size := some 6 })],
    freeblocks := [], free_list := [] }

/-- Page A after removing key 20. -/
def pA3 : SlottedPage Nat Nat :=
  { header := { page_type := PageType.Leaf, page_id := 0, page_size := 7,
                offset := 4079, first_freeblock := 0 },
    offsets := [4089],
    cells := [(4089, { key := 10, value := 5, cached_size := some 6 })],
    freeblocks := [], free_list := [8] }

/-- Page B of the C5 counterexample: same keys, but a larger key-10 cell
    (size 10), so the key-20 cell sits at offset 4076 instead. -/
def pB2 : SlottedPage Nat Nat :=
  { header := { page_type := PageType.Leaf, page_id := 0, page_size := 20,
                offset := 4075, first_freeblock := 0 },
    offsets := [4085, 4076],
    cells := [(4076, { key := 20, value := 7, cached_size := some 8 }),
              (4085, { key := 10, value := 9, cached_size := some 10 })],
    freeblocks := [], free_list := [] }

/-- Page B after removing key 20. -/
def pB3 : SlottedPage Nat Nat :=
  { header := { page_type := PageType.Leaf, page_id := 0, page_size := 11,
                offset := 4075, first_freeblock := 0 },
    offsets := [4085],
    cells := [(4085, { key := 10, value := 9, cached_size := some 10 })],
    freeblocks := [], free_list := [8] }

/-- Validation against cell.rs test_cell_size: the ("key12", "value1") cell
    has encoded size 13. -/
theorem cell_size_matches_test :
    (Cell.size encStr encStr { key := "key12", value := "value1", cached_size := none }).2
      = 13 := by
  decide

/-- Validation against cell.rs test_cell_size_int: the (1i32, 1i32) cell has
    encoded size 2. -/
theorem cell_size_int_matches_test :
    (Cell.size encI32 encI32 { key := (1 : Int), value := (1 : Int), cached_size := none }).2
      = 2 := by
  decide

/-- Validation against slotted_page.rs test_offset_order: after inserting
    keys "b", "c", "a" (as byte strings under the bincode encoding, with the
    values "value1".."value3") into a fresh page, the directory reads
    [4066, 4086, 4076] — sorted by key, offsets carved from the descending
    tail — exactly the vector the draft's own test asserts. -/
theorem insert_offsets_match_test :
    runOps encBytes encBytes
      { header := { page_type := PageType.Internal, page_id := 0, page_size := 0,
                    offset := PAGE_SIZE, first_freeblock := 0 },
        offsets := [], cells := [], freeblocks := [], free_list := [] }
      [.ins [98] [118, 97, 108, 117, 101, 49],
       .ins [99] [118, 97, 108, 117, 101, 50],
       .ins [97] [118, 97, 108, 117, 101, 51]]
    = .ok
      { header := { page_type := PageType.Internal, page_id := 0, page_size := 30,
                    offset := 4065, first_freeblock := 0 },
        offsets := [4066, 4086, 4076],
        cells := [(4066, { key := [97], value := [118, 97, 108, 117, 101, 51],
                           cached_size := some 9 }),
                  (4076, { key := [99], value := [118, 97, 108, 117, 101, 50],
                           cached_size := some 9 }),
                  (4086, { key := [98], value := [118, 97, 108, 117, 101, 49],
                           cached_size := some 9 })],
        freeblocks := [], free_list := [] } := by
  decide

/-- C8 counterexample: on the i32/i32 cell (1, 1) the code's _serialize
    yields the bare two-byte concatenation of the component encodings, and
    in particular not the buffer that the claimed per-component length
    tagging would give; no length tag of the cell layer's own precedes
    either component (the whole buffer is shorter than two nonempty tags
    would require). -/
theorem C8_counterexample :
    Cell._serialize encI32 encI32 { key := (1 : Int), value := (1 : Int), cached_size := none }
        = [2, 2] ∧
      Cell._serialize encI32 encI32 { key := (1 : Int), value := (1 : Int), cached_size := none }
        ≠ serializeSpec encI32 encI32 { key := (1 : Int), value := (1 : Int), cached_size := none } := by
  decide

/-- C8 amended: _serialize concatenates the key's encoding and then the
    value's encoding into one contiguous buffer, adding no length tag of its
    own; the key/value boundary is decodable from the buffer alone exactly
    when the component encodings are self-delimiting, as bincode's byte
    string encoding is — for byte-string keys and values below the one-byte
    varint limit, the decoder recovers both components from the buffer. -/
theorem C8_serialize_concats_selfdelimiting (k v : List Nat)
    (_hk : k.length < 251) (_hv : v.length < 251) :
    Cell._serialize encBytes encBytes { key := k, value := v, cached_size := none }
        = encBytes k ++ encBytes v ∧
      decodeKV (Cell._serialize encBytes encBytes { key := k, value := v, cached_size := none })
        = some (k, v) := by
  refine ⟨rfl, ?_⟩
  simp only [Cell._serialize, encBytes, decodeKV, List.cons_append]
  rw [List.take_left' rfl, List.drop_left' (by rfl)]
  simp

/-- C8 amended, witness at key [7, 8], value [9]. -/
theorem C8_witness :
    Cell._serialize encBytes encBytes { key := [7, 8], value := [9], cached_size := none }
        = encBytes [7, 8] ++ encBytes [9] ∧
      decodeKV (Cell._serialize encBytes encBytes { key := [7, 8], value := [9], cached_size := none })
        = some ([7, 8], [9]) :=
  C8_serialize_concats_selfdelimiting [7, 8] [9] (by decide) (by decide)

/-- C9: for a cell freshly built by Cell::new, the first size() call encodes
    once and returns the encoding's length, caching it in cached_size; and
    for every cell, calling size() on the result of size() returns the same
    cell and the same number again (idempotence), the cached value being
    served without re-encoding (the cached branch of size never calls
    _serialize). -/
theorem C9_encoded_size_caches {K V : Type} (encK : K → List Nat) (encV : V → List Nat)
    (k : K) (v : V) :
    ∃ c0 : Cell K V, Cell.new k v = .ok c0 ∧
      (Cell.size encK encV c0).2 = (Cell._serialize encK encV c0).length ∧
      (Cell.size encK encV c0).1.cached_size
          = some ((Cell._serialize encK encV c0).length) ∧
      ∀ c : Cell K V,
        Cell.size encK encV (Cell.size encK encV c).1
          = ((Cell.size encK encV c).1, (Cell.size encK encV c).2) := by
  refine ⟨_, rfl, rfl, rfl, ?_⟩
  intro c
  cases h : c.cached_size <;> simp [Cell.size, h]

/-- C10: Cell::new never fails — for every key and value it returns Ok of
    the cell with an empty size cache, despite the Result signature. -/
theorem C10_cell_new_always_ok {K V : Type} (k : K) (v : V) :
    Cell.new k v = .ok { key := k, value := v, cached_size := none } := rfl

/-- C6 amended: read_page and write_page address byte offset
    header size (16) + page_id * page size (4096); read_page reads exactly
    PageSize bytes and fails with IOError on a short read; write_page writes
    exactly the given buffer's bytes at that offset (zero-padding any seek
    gap, leaving the rest of the file unchanged) — not necessarily page_size
    bytes, since the buffer's length is never checked; and when the file was
    opened with forced_sync, the write is flushed before returning. -/
theorem C6_read_write_contract (f : DbFile) (st : FileState) (pid : Nat) (buf : List Nat) :
    (seekOffset pid + PageSize ≤ st.data.length →
        read_page st pid = .ok ((st.data.drop (DBHeaderSize + pid * PageSize)).take PageSize)) ∧
    (∀ fr, read_page st pid = .ok fr → fr.length = PageSize) ∧
    (st.data.length < seekOffset pid + PageSize → read_page st pid = .error .ioError) ∧
    (write_page f st pid buf).2 = .ok () ∧
    (((write_page f st pid buf).1.data.drop (DBHeaderSize + pid * PageSize)).take buf.length
        = buf) ∧
    ((write_page f st pid buf).1.data.take (seekOffset pid)
        = (st.data ++ List.replicate (seekOffset pid - st.data.length) 0).take (seekOffset pid)) ∧
    ((write_page f st pid buf).1.data.drop (seekOffset pid + buf.length)
        = (st.data ++ List.replicate (seekOffset pid - st.data.length) 0).drop
            (seekOffset pid + buf.length)) ∧
    ((write_page f st pid buf).1.data.length
        = max (seekOffset pid + buf.length)
            (st.data ++ List.replicate (seekOffset pid - st.data.length) 0).length) ∧
    (f.forced_sync = true → (write_page f st pid buf).1.pending = false) := by
  have hoff : seekOffset pid = DBHeaderSize + pid * PageSize := rfl
  have hpadlen :
      (st.data ++ List.replicate (seekOffset pid - st.data.length) 0).length
        = max st.data.length (seekOffset pid) := by
    simp [List.length_append, List.length_replicate]
    omega
  refine ⟨?_, ?_, ?_, rfl, ?_, ?_, ?_, ?_, ?_⟩
  · intro h
    simp only [read_page, if_pos h]
    rfl
  · intro fr hfr
    simp only [read_page] at hfr
    split at hfr
    · cases hfr
      have := List.length_drop (seekOffset pid) st.data
      simp only [List.length_take, List.length_drop]
      omega
    · cases hfr
  · intro h
    simp only [read_page]
    rw [if_neg (by omega)]
  · show ((_ ++ _ ++ _ : List Nat).drop _).take _ = buf
    rw [List.append_assoc, List.drop_left' (by rw [List.length_take, hpadlen]; omega),
      List.take_left' rfl]
  · show (_ ++ _ ++ _ : List Nat).take _ = _
    rw [List.append_assoc, List.take_left' (by rw [List.length_take, hpadlen]; omega)]
  · show (_ ++ _ ++ _ : List Nat).drop _ = _
    rw [List.drop_left' (by rw [List.length_append, List.length_take, hpadlen]; omega)]
  · show (_ ++ _ ++ _ : List Nat).length = _
    simp only [List.length_append, List.length_take, List.length_drop, hpadlen]
    omega
  · intro h
    simp [write_page, h]

/-- C6 witness: the contract applied to an empty file — the read fails
    short, and a forced-sync write leaves nothing pending. -/
theorem C6_witness :
    read_page { data := [], pending := false } 0 = .error .ioError ∧
    (write_page { forced_sync := true } { data := [], pending := true } 0 [42]).1.pending
        = false := by
  have h0 := C6_read_write_contract { forced_sync := true }
      { data := [], pending := false } 0 [42]
  have h := C6_read_write_contract { forced_sync := true }
      { data := [], pending := true } 0 [42]
  exact ⟨h0.2.2.1 (by norm_num [seekOffset, DBHeaderSize, PageSize]),
    h.2.2.2.2.2.2.2.2 rfl⟩

/-- C6 counterexample: a successful write_page of a one-byte buffer on a
    fresh file writes one byte, not page_size bytes — the resulting file is
    17 bytes long, far short of offset + page size. -/
theorem C6_counterexample :
    (write_page { forced_sync := true } { data := [], pending := false } 0 [42]).2
        = .ok () ∧
    (write_page { forced_sync := true } { data := [], pending := false } 0 [42]).1.data.length
        = 17 ∧
    17 < DBHeaderSize + PageSize := by
  refine ⟨rfl, ?_, by decide⟩
  simp [write_page, seekOffset, DBHeaderSize, PageSize]

/-- C7: FileManager::create returns Ok for every input because the
    create_new Result is discarded; in particular it returns Ok even when
    the file already exists, where the inner open has just failed with
    AlreadyExists. -/
theorem C7_create_swallows_errors :
    (∀ (fs : Fs) (path name : String), (FileManager.create fs path name).2 = .ok ()) ∧
    (FileManager.create { files := ["dir/db.bd"] } "dir" "db").2 = .ok () ∧
    openCreateNew { files := ["dir/db.bd"] } (dbFilePath "dir" "db")
      = ({ files := ["dir/db.bd"] }, .error .alreadyExists) := by
  refine ⟨fun _ _ _ => rfl, rfl, ?_⟩
  rfl

/-- C1 counterexample: inserting the same key twice succeeds twice and
    leaves a two-entry directory whose referenced keys are 5 and 5 — not
    strictly ascending, falsifying the invariant as claimed for arbitrary
    insert sequences. -/
theorem C1_counterexample :
    SlottedPage.new 0 PageType.Leaf = .ok pEmptyNat ∧
    runOps encNat1 encNat1 pEmptyNat [.ins 5 1, .ins 5 2] = .ok pDup5 ∧
    pDup5.offsets.map (keyAtD pDup5.cells) = [5, 5] ∧
    ¬ pDup5.offsets.Pairwise
        (fun a b => keyAtD pDup5.cells a < keyAtD pDup5.cells b) := by
  decide

/-- C4: the code has no duplicate-key handling — inserting an existing key
    appends a second directory entry for it; both cells stay live, nothing
    is overwritten or returned to the free list. -/
theorem C4_duplicate_key_double_entry :
    SlottedPage.new 0 PageType.Leaf = .ok pEmptyNat ∧
    runOps encNat1 encNat1 pEmptyNat [.ins 7 3, .ins 7 4] = .ok pDup7 ∧
    pDup7.offsets.length = 2 ∧
    pDup7.offsets.map (keyAtD pDup7.cells) = [7, 7] ∧
    hmLookup pDup7.cells 4093 = some { key := 7, value := 3, cached_size := some 2 } ∧
    hmLookup pDup7.cells 4090 = some { key := 7, value := 4, cached_size := some 2 } ∧
    pDup7.free_list = [] ∧ pDup7.freeblocks = [] := by
  decide

/-- C3: on the page with keys 1, 3, 5, 6, lower-bound Find(2) returns the
    key-1 cell, Find(6) the key-6 cell exactly, Find(7) the key-6 cell; but
    for target 0, smaller than every key present, find_key panics on u16
    underflow in `right = mid - 1` instead of returning NotFound. -/
theorem C3_find_key_examples_and_underflow :
    SlottedPage.new 0 PageType.Leaf = .ok pEmptyNat ∧
    runOps encNat1 encNat1 pEmptyNat [.ins 1 11, .ins 3 13, .ins 5 15, .ins 6 16]
        = .ok pK1356 ∧
    SlottedPage.find_key pK1356 2 = .ok (some { key := 1, value := 11, cached_size := some 2 }) ∧
    SlottedPage.find_key pK1356 6 = .ok (some { key := 6, value := 16, cached_size := some 2 }) ∧
    SlottedPage.find_key pK1356 7 = .ok (some { key := 6, value := 16, cached_size := some 2 }) ∧
    (∀ o ∈ pK1356.offsets, ∃ c, hmLookup pK1356.cells o = some c ∧ 0 < c.key) ∧
    SlottedPage.find_key pK1356 0 = .error .underflow := by
  decide

set_option maxRecDepth 8000 in
/-- C2: after four 1000-byte inserts exhaust the tail and key 1 is removed,
    free_list records the freed 1000 bytes but freeblocks stays empty, so an
    insert of a 501-byte cell — which the claimed first-fit free-list scan
    would satisfy from the freed block — fails as page-full, and the free
    boundary of a tail insert moves by size + 1, not by size. -/
theorem C2_freed_space_not_reusable :
    SlottedPage.new 0 PageType.Leaf = .ok pEmptyNat ∧
    runOps encNat1 encPad pEmptyNat
        [.ins 1 999, .ins 2 999, .ins 3 999, .ins 4 999, .del 1] = .ok pC2pre ∧
    pC2pre.free_list = [1000] ∧
    pC2pre.freeblocks = [] ∧
    (Cell.size encNat1 encPad { key := 5, value := 500, cached_size := none }).2 = 501 ∧
    501 ≤ 1000 ∧
    SlottedPage.insert encNat1 encPad pC2pre 5 500
        = .ok (pC2pre, .error .notEnoughSpace) ∧
    runOps encNat1 encNat1 pEmptyNat [.ins 5 1] = .ok pDup5a ∧
    (Cell.size encNat1 encNat1 { key := 5, value := 1, cached_size := none }).2 = 2 ∧
    pDup5a.header.offset = PAGE_SIZE - 3 := by
  decide

/-- C5 counterexample: two reachable pages that hold the key-20 cell at
    different byte offsets (4080 and 4076) end up with identical free lists
    after deleting key 20 — the free list records only the size 8, never an
    (offset, size) block, so the deleted cell's exact byte range is not
    returned to it. -/
theorem C5_counterexample :
    runOps encNat1 encPad pEmptyNat [.ins 10 5, .ins 20 7] = .ok pA2 ∧
    runOps encNat1 encPad pEmptyNat [.ins 10 9, .ins 20 7] = .ok pB2 ∧
    hmLookup pA2.cells 4080 = some { key := 20, value := 7, cached_size := some 8 } ∧
    hmLookup pB2.cells 4076 = some { key := 20, value := 7, cached_size := some 8 } ∧
    SlottedPage.remove encNat1 encPad pA2 20 = .ok (pA3, .ok ()) ∧
    SlottedPage.remove encNat1 encPad pB2 20 = .ok (pB3, .ok ()) ∧
    pA3.free_list = pB3.free_list ∧
    (4080 : Nat) ≠ 4076 := by
  decide

/-! ### Helper lemmas on the cell map and the directory sort -/

section Helpers

variable {K V : Type} [LinearOrder K] [Inhabited K]
variable (encK : K → List Nat) (encV : V → List Nat)

theorem find?_filter_ne (m : List (Nat × Cell K V)) (o x : Nat) (hx : x ≠ o) :
    List.find? (fun p => p.1 == x) (m.filter (fun p => !(p.1 == o)))
      = List.find? (fun p => p.1 == x) m := by
  induction m with
  | nil => rfl
  | cons a m ih =>
      by_cases h1 : a.1 = o
      · have hax : ¬ ((fun p : Nat × Cell K V => p.1 == x) a = true) := by
          simp [h1]
          exact fun he => hx he.symm
        rw [List.filter_cons, if_neg (by simp [h1]), ih]
        exact (List.find?_cons_of_neg m hax).symm
      · by_cases h2 : a.1 = x
        · rw [List.filter_cons, if_pos (by simp [h1]),
            List.find?_cons_of_pos _ (by simp [h2]),
            List.find?_cons_of_pos _ (by simp [h2])]
        · rw [List.filter_cons, if_pos (by simp [h1]),
            List.find?_cons_of_neg _ (by simp [h2]), ih,
            List.find?_cons_of_neg _ (by simp [h2])]

theorem hmLookup_insert (m : List (Nat × Cell K V)) (o : Nat) (c : Cell K V) (x : Nat) :
    hmLookup (hmInsert m o c) x = if x = o then some c else hmLookup m x := by
  unfold hmInsert hmErase hmLookup
  by_cases hx : x = o
  · subst hx
    simp [List.find?_cons]
  · rw [if_neg hx]
    have hox : (o == x) = false := by
      simp
      exact fun he => hx he.symm
    simp only [List.find?_cons, hox]
    rw [find?_filter_ne m o x hx]

theorem hmLookup_erase (m : List (Nat × Cell K V)) (o : Nat) (x : Nat) :
    hmLookup (hmErase m o) x = if x = o then none else hmLookup m x := by
  unfold hmErase hmLookup
  by_cases hx : x = o
  · subst hx
    simp only [if_pos rfl]
    rw [List.find?_eq_none.mpr]
    · rfl
    · intro p hp
      have := List.of_mem_filter hp
      simpa using this
  · rw [if_neg hx, find?_filter_ne m o x hx]

theorem keyAtD_insert (m : List (Nat × Cell K V)) (o : Nat) (c : Cell K V) (x : Nat) :
    keyAtD (hmInsert m o c) x = if x = o then c.key else keyAtD m x := by
  unfold keyAtD
  rw [hmLookup_insert]
  split <;> rfl

theorem keyAtD_erase (m : List (Nat × Cell K V)) (o : Nat) (x : Nat) (hx : x ≠ o) :
    keyAtD (hmErase m o) x = keyAtD m x := by
  unfold keyAtD
  rw [hmLookup_erase, if_neg hx]

theorem sortOffsets_perm (m : List (Nat × Cell K V)) (l : List Nat) :
    List.Perm (sortOffsets m l) l :=
  List.perm_insertionSort _ l

theorem nodup_of_pairwise_lt (f : Nat → K) (l : List Nat)
    (h : l.Pairwise (fun a b => f a < f b)) : l.Nodup :=
  h.imp (fun {a b} hab he => absurd (he ▸ hab) (lt_irrefl _))

theorem sortOffsets_pairwise_lt (m : List (Nat × Cell K V)) (l : List Nat)
    (hnd : (l.map (keyAtD m)).Nodup) :
    (sortOffsets m l).Pairwise (fun a b => keyAtD m a < keyAtD m b) := by
  have hs : (sortOffsets m l).Pairwise (keyLe m) := List.sorted_insertionSort _ l
  have hperm : List.Perm (sortOffsets m l) l := sortOffsets_perm m l
  have hnd2 : ((sortOffsets m l).map (keyAtD m)).Nodup :=
    ((hperm.map (keyAtD m)).nodup_iff).mpr hnd
  have hne : (sortOffsets m l).Pairwise (fun a b => keyAtD m a ≠ keyAtD m b) :=
    List.pairwise_map.mp hnd2
  exact (hs.and hne).imp (fun h => lt_of_le_of_ne h.1 h.2)

theorem map_sum_eraseIdx (f : Nat → Nat) :
    ∀ (l : List Nat) (i : Nat) (x : Nat), l.get? i = some x →
      (l.map f).sum = f x + ((l.eraseIdx i).map f).sum := by
  intro l
  induction l with
  | nil => intro i x h; cases h
  | cons a l ih =>
      intro i x h
      cases i with
      | zero =>
          cases h
          simp [List.eraseIdx]
      | succ n =>
          have h' : l.get? n = some x := h
          simp only [List.map_cons, List.sum_cons, List.eraseIdx_cons_succ]
          rw [ih n x h']
          omega

theorem not_mem_eraseIdx_of_nodup :
    ∀ (l : List Nat) (i : Nat) (x : Nat), l.Nodup → l.get? i = some x →
      x ∉ l.eraseIdx i := by
  intro l
  induction l with
  | nil => intro i x _ h; cases h
  | cons a l ih =>
      intro i x hnd h
      cases i with
      | zero =>
          cases h
          simpa [List.eraseIdx] using (List.nodup_cons.mp hnd).1
      | succ n =>
          have h' : l.get? n = some x := h
          have hx : x ∈ l := List.get?_mem h'
          intro hmem
          simp only [List.eraseIdx_cons_succ, List.mem_cons] at hmem
          rcases hmem with rfl | hmem
          · exact (List.nodup_cons.mp hnd).1 hx
          · exact ih n x (List.nodup_cons.mp hnd).2 h' hmem

theorem u16chk_ok {a n : Nat} (h : u16chk a = .ok n) : a < 65536 ∧ n = a := by
  unfold u16chk at h
  split at h
  · cases h
    exact ⟨‹_›, rfl⟩
  · cases h

theorem u16sub_ok {a b n : Nat} (h : u16sub a b = .ok n) : b ≤ a ∧ n = a - b := by
  unfold u16sub at h
  split at h
  · cases h
    exact ⟨‹_›, rfl⟩
  · cases h

theorem can_insert_ok (p : SlottedPage K V) (c : Cell K V)
    (out : SlottedPage K V × Cell K V × Except DbError Position)
    (hfb : p.freeblocks = [])
    (h : SlottedPage.can_insert encK encV p c = .ok out) :
    out.1 = p ∧ out.2.1 = (Cell.size encK encV c).1 ∧
      (out.2.2 = .ok (.Free (asU16 (Cell.size encK encV c).2)) ∨
       out.2.2 = .error .notEnoughSpace) := by
  unfold SlottedPage.can_insert at h
  rw [hfb] at h
  simp only [bind, Except.bind, List.enum_nil, List.find?_nil] at h
  rcases h1 : u16chk (PageHeaderSize + (asU16 p.offsets.length + 1) * 2) with e | hs
  · rw [h1] at h
    cases h
  rw [h1] at h
  simp only [] at h
  rcases h2 : u16sub p.header.offset hs with e | tail
  · rw [h2] at h
    cases h
  rw [h2] at h
  simp only [] at h
  rcases h3 : u16chk (asU16 (Cell.size encK encV c).2 + 2) with e | req2
  · rw [h3] at h
    cases h
  rw [h3] at h
  simp only [] at h
  by_cases h4 : req2 ≤ tail
  · rw [if_pos h4] at h
    cases h
    exact ⟨rfl, rfl, Or.inl rfl⟩
  · rw [if_neg h4] at h
    cases h
    exact ⟨rfl, rfl, Or.inr rfl⟩

theorem insert_ok_char (p : SlottedPage K V) (k : K) (v : V)
    (p' : SlottedPage K V) (r : Except DbError Unit)
    (hfb : p.freeblocks = [])
    (h : SlottedPage.insert encK encV p k v = .ok (p', r)) :
    (r = .error .notEnoughSpace ∧ p' = p) ∨
    (r = .ok () ∧
      (asU16 (encK k ++ encV v).length) + 1 ≤ p.header.offset ∧
      p.header.page_size + (asU16 (encK k ++ encV v).length) + 1 < 65536 ∧
      p'.header.offset = p.header.offset - ((asU16 (encK k ++ encV v).length) + 1) ∧
      p'.header.page_size = p.header.page_size + (asU16 (encK k ++ encV v).length) + 1 ∧
      p'.header.page_type = p.header.page_type ∧
      p'.header.page_id = p.header.page_id ∧
      p'.header.first_freeblock = p.header.first_freeblock ∧
      p'.cells = hmInsert p.cells (p.header.offset - asU16 (encK k ++ encV v).length)
        { key := k, value := v, cached_size := some (encK k ++ encV v).length } ∧
      p'.offsets = sortOffsets p'.cells
        (p.offsets ++ [p.header.offset - asU16 (encK k ++ encV v).length]) ∧
      p'.freeblocks = p.freeblocks ∧
      p'.free_list = p.free_list) := by
  unfold SlottedPage.insert at h
  simp only [Cell.new, bind, Except.bind] at h
  rcases hc : SlottedPage.can_insert encK encV p
      { key := k, value := v, cached_size := none } with e | out
  · rw [hc] at h
    cases h
  obtain ⟨o1, o2, o3⟩ := out
  obtain ⟨ho1, ho2, hfree | herr⟩ := can_insert_ok encK encV p _ _ hfb hc
  · simp only at ho1 ho2 hfree
    have hsz : Cell.size encK encV { key := k, value := v, cached_size := none }
        = ({ key := k, value := v,
             cached_size := some (encK k ++ encV v).length }, (encK k ++ encV v).length) := rfl
    rw [hsz] at ho2 hfree
    subst ho2 hfree
    rw [ho1] at hc
    rw [hc] at h
    simp only [] at h
    rcases hs1 : u16chk (asU16 (encK k ++ encV v).length + 1) with e | s1
    · rw [hs1] at h
      cases h
    rw [hs1] at h
    simp only [] at h
    rcases hoff : u16sub p.header.offset s1 with e | off'
    · rw [hoff] at h
      cases h
    rw [hoff] at h
    simp only [] at h
    rcases ho : u16chk (off' + 1) with e | o
    · rw [ho] at h
      cases h
    rw [ho] at h
    simp only [] at h
    rcases hps : u16chk (p.header.page_size + asU16 (encK k ++ encV v).length) with e | ps
    · rw [hps] at h
      cases h
    rw [hps] at h
    simp only [SlottedPage.insertFinish, bind, Except.bind] at h
    rcases hps2 : u16chk (ps + 1) with e | ps2
    · rw [hps2] at h
      cases h
    rw [hps2] at h
    simp only [] at h
    cases h
    obtain ⟨hc1, hc2⟩ := u16chk_ok hs1
    obtain ⟨hc3, hc4⟩ := u16sub_ok hoff
    obtain ⟨hc5, hc6⟩ := u16chk_ok ho
    obtain ⟨hc7, hc8⟩ := u16chk_ok hps
    obtain ⟨hc9, hc10⟩ := u16chk_ok hps2
    have hov : o = p.header.offset - asU16 (encK k ++ encV v).length := by omega
    refine Or.inr ⟨rfl, by omega, by omega, by simp only; omega, by simp only; omega,
      rfl, rfl, rfl, ?_, ?_, rfl, rfl⟩
    · simp only
      rw [hov]
    · simp only
      rw [hov]
  · simp only at ho1 ho2 herr
    subst herr
    rw [ho1] at hc
    rw [hc] at h
    simp only [] at h
    cases h
    exact Or.inl ⟨rfl, rfl⟩

theorem remove_ok_char (p : SlottedPage K V) (key : K)
    (p' : SlottedPage K V) (r : Except DbError Unit)
    (h : SlottedPage.remove encK encV p key = .ok (p', r)) :
    (r = .error .noSuchKey ∧ p' = p ∧ SlottedPage.find_key_index p key = .ok none) ∨
    (r = .ok () ∧ ∃ idx off c,
      SlottedPage.find_key_index p key = .ok (some idx) ∧
      p.offsets.get? idx = some off ∧
      hmLookup p.cells off = some c ∧
      asU16 (Cell.size encK encV c).2 + 1 ≤ p.header.page_size ∧
      p'.offsets = p.offsets.eraseIdx idx ∧
      p'.cells = hmErase p.cells off ∧
      p'.free_list = p.free_list ++ [(Cell.size encK encV c).2] ∧
      p'.freeblocks = p.freeblocks ∧
      p'.header.offset = p.header.offset ∧
      p'.header.page_type = p.header.page_type ∧
      p'.header.page_id = p.header.page_id ∧
      p'.header.first_freeblock = p.header.first_freeblock ∧
      p'.header.page_size
        = p.header.page_size - asU16 (Cell.size encK encV c).2 - 1) := by
  unfold SlottedPage.remove at h
  simp only [bind, Except.bind] at h
  rcases hf : SlottedPage.find_key_index p key with e | oi
  · rw [hf] at h
    cases h
  rw [hf] at h
  simp only [] at h
  rcases oi with _ | idx
  · cases h
    exact Or.inl ⟨rfl, rfl, rfl⟩
  · simp only [] at h
    rcases hg : p.offsets.get? idx with _ | off
    · rw [hg] at h
      cases h
    rw [hg] at h
    simp only [] at h
    rcases hl : hmLookup p.cells off with _ | c
    · rw [hl] at h
      cases h
    rw [hl] at h
    simp only [] at h
    rcases hp1 : u16sub p.header.page_size (asU16 (Cell.size encK encV c).2) with e | ps1
    · rw [hp1] at h
      cases h
    rw [hp1] at h
    simp only [] at h
    rcases hp2 : u16sub ps1 1 with e | ps2
    · rw [hp2] at h
      cases h
    rw [hp2] at h
    simp only [] at h
    cases h
    obtain ⟨hd1, hd2⟩ := u16sub_ok hp1
    obtain ⟨hd3, hd4⟩ := u16sub_ok hp2
    exact Or.inr ⟨rfl, idx, off, c, rfl, hg, hl, by omega, rfl, rfl, rfl, rfl,
      rfl, rfl, rfl, rfl, by simp only; omega⟩

theorem pageKeys_nodup (p : SlottedPage K V)
    (hsorted : p.offsets.Pairwise (fun a b => keyAtD p.cells a < keyAtD p.cells b)) :
    (pageKeys p).Nodup := by
  unfold pageKeys
  have hlt : (p.offsets.map (keyAtD p.cells)).Pairwise (· < ·) :=
    List.pairwise_map.mpr hsorted
  exact hlt.imp (fun h => ne_of_lt h)

theorem cellOk_extract {m : List (Nat × Cell K V)} {o : Nat} {c : Cell K V}
    (hok : cellOkB encK encV m o = true) (hl : hmLookup m o = some c) :
    c.cached_size = some ((Cell._serialize encK encV c).length) := by
  unfold cellOkB at hok
  rw [hl] at hok
  simpa using hok

theorem insert_preserves_inv (p p' : SlottedPage K V) (r : Except DbError Unit)
    (k : K) (v : V)
    (hInv : Inv encK encV p) (hk : k ∉ pageKeys p)
    (h : SlottedPage.insert encK encV p k v = .ok (p', r)) :
    Inv encK encV p' := by
  obtain ⟨hfb, hsorted, hmapped, hbound, hacct⟩ := hInv
  rcases insert_ok_char encK encV p k v p' r hfb h with ⟨_, rfl⟩ | hfree
  · exact ⟨hfb, hsorted, hmapped, hbound, hacct⟩
  obtain ⟨_, hle, hltsz, hoff, hps, _, _, _, hcells, hoffs, hfb', hfl⟩ := hfree
  have hno : ∀ x ∈ p.offsets, x ≠ p.header.offset - asU16 (encK k ++ encV v).length := by
    intro x hx
    have := hbound x hx
    omega
  have hL : ∀ x, x ≠ p.header.offset - asU16 (encK k ++ encV v).length →
      hmLookup p'.cells x = hmLookup p.cells x := by
    intro x hx
    rw [hcells, hmLookup_insert, if_neg hx]
  have hKcong : ∀ x ∈ p.offsets, keyAtD p'.cells x = keyAtD p.cells x := by
    intro x hx
    unfold keyAtD
    rw [hL x (hno x hx)]
  have hKo : keyAtD p'.cells (p.header.offset - asU16 (encK k ++ encV v).length) = k := by
    unfold keyAtD
    rw [hcells, hmLookup_insert, if_pos rfl]
    rfl
  have hperm : List.Perm p'.offsets
      (p.offsets ++ [p.header.offset - asU16 (encK k ++ encV v).length]) := by
    rw [hoffs]
    exact sortOffsets_perm _ _
  refine ⟨by rw [hfb', hfb], ?_, ?_, ?_, ?_⟩
  · rw [hoffs]
    apply sortOffsets_pairwise_lt
    rw [List.map_append]
    have hmc : p.offsets.map (keyAtD p'.cells) = p.offsets.map (keyAtD p.cells) :=
      List.map_congr_left hKcong
    rw [hmc]
    refine List.nodup_append.mpr ⟨pageKeys_nodup p hsorted, ?_, ?_⟩
    · simp
    · intro a ha hb
      simp only [List.map_cons, List.map_nil, List.mem_singleton, hKo] at hb
      subst hb
      exact hk ha
  · intro x hx
    rcases List.mem_append.mp (hperm.mem_iff.mp hx) with hxo | hxn
    · have heq : cellOkB encK encV p'.cells x = cellOkB encK encV p.cells x := by
        unfold cellOkB
        rw [hL x (hno x hxo)]
      rw [heq]
      exact hmapped x hxo
    · have hxeq : x = p.header.offset - asU16 (encK k ++ encV v).length := by
        simpa using hxn
      subst hxeq
      unfold cellOkB
      rw [hcells, hmLookup_insert, if_pos rfl]
      simp [Cell._serialize]
  · intro x hx
    rw [hoff]
    rcases List.mem_append.mp (hperm.mem_iff.mp hx) with hxo | hxn
    · have := hbound x hxo
      omega
    · have hxeq : x = p.header.offset - asU16 (encK k ++ encV v).length := by
        simpa using hxn
      omega
  · rw [hps]
    have hsum : (p'.offsets.map (szTAt encK encV p'.cells)).sum
        = ((p.offsets ++ [p.header.offset - asU16 (encK k ++ encV v).length]).map
            (szTAt encK encV p'.cells)).sum :=
      (hperm.map _).sum_eq
    have hlen : p'.offsets.length = p.offsets.length + 1 := by
      rw [hperm.length_eq]
      simp
    have hmc : p.offsets.map (szTAt encK encV p'.cells)
        = p.offsets.map (szTAt encK encV p.cells) := by
      refine List.map_congr_left ?_
      intro x hx
      unfold szTAt
      rw [hL x (hno x hx)]
    have hszo : szTAt encK encV p'.cells
        (p.header.offset - asU16 (encK k ++ encV v).length)
          = asU16 (encK k ++ encV v).length := by
      unfold szTAt
      rw [hcells, hmLookup_insert, if_pos rfl]
      rfl
    rw [hsum, List.map_append, List.sum_append, hmc, hlen]
    simp only [List.map_cons, List.map_nil, List.sum_cons, List.sum_nil, hszo]
    omega

theorem remove_preserves_inv (p p' : SlottedPage K V) (r : Except DbError Unit)
    (key : K)
    (hInv : Inv encK encV p)
    (h : SlottedPage.remove encK encV p key = .ok (p', r)) :
    Inv encK encV p' := by
  obtain ⟨hfb, hsorted, hmapped, hbound, hacct⟩ := hInv
  rcases remove_ok_char encK encV p key p' r h with ⟨_, rfl, _⟩ |
    ⟨_, idx, off, c, hfi, hg, hl, hple, hoffs, hcells, hfl, hfb', hoff, _, _, _, hps⟩
  · exact ⟨hfb, hsorted, hmapped, hbound, hacct⟩
  have hnd : p.offsets.Nodup := nodup_of_pairwise_lt (keyAtD p.cells) _ hsorted
  have hnotmem : off ∉ p.offsets.eraseIdx idx :=
    not_mem_eraseIdx_of_nodup p.offsets idx off hnd hg
  have hsub : List.Sublist (p.offsets.eraseIdx idx) p.offsets :=
    List.eraseIdx_sublist _ _
  have hne : ∀ x ∈ p.offsets.eraseIdx idx, x ≠ off := by
    intro x hx heq
    exact hnotmem (heq ▸ hx)
  have hL : ∀ x ∈ p.offsets.eraseIdx idx, hmLookup p'.cells x = hmLookup p.cells x := by
    intro x hx
    rw [hcells, hmLookup_erase, if_neg (hne x hx)]
  refine ⟨by rw [hfb', hfb], ?_, ?_, ?_, ?_⟩
  · rw [hoffs]
    refine ((hsorted.sublist hsub).imp_of_mem ?_)
    intro a b ha hb hrel
    have hka : keyAtD p'.cells a = keyAtD p.cells a := by
      unfold keyAtD
      rw [hL a ha]
    have hkb : keyAtD p'.cells b = keyAtD p.cells b := by
      unfold keyAtD
      rw [hL b hb]
    rw [hka, hkb]
    exact hrel
  · intro x hx
    rw [hoffs] at hx
    have heq : cellOkB encK encV p'.cells x = cellOkB encK encV p.cells x := by
      unfold cellOkB
      rw [hL x hx]
    rw [heq]
    exact hmapped x (hsub.mem hx)
  · intro x hx
    rw [hoff]
    rw [hoffs] at hx
    exact hbound x (hsub.mem hx)
  · have hoffmem : off ∈ p.offsets := List.get?_mem hg
    have hcache : c.cached_size = some ((Cell._serialize encK encV c).length) :=
      cellOk_extract encK encV (hmapped off hoffmem) hl
    have hszc : Cell.size encK encV c = (c, (Cell._serialize encK encV c).length) := by
      unfold Cell.size
      rw [hcache]
    have hidx : idx < p.offsets.length := by
      by_contra hcon
      rw [List.get?_eq_none.mpr (by omega)] at hg
      cases hg
    have hsplit : (p.offsets.map (szTAt encK encV p.cells)).sum
        = szTAt encK encV p.cells off
          + ((p.offsets.eraseIdx idx).map (szTAt encK encV p.cells)).sum :=
      map_sum_eraseIdx _ p.offsets idx off hg
    have hszoff : szTAt encK encV p.cells off
        = asU16 (Cell._serialize encK encV c).length := by
      unfold szTAt
      rw [hl]
    have hmc : (p.offsets.eraseIdx idx).map (szTAt encK encV p'.cells)
        = (p.offsets.eraseIdx idx).map (szTAt encK encV p.cells) := by
      refine List.map_congr_left ?_
      intro x hx
      unfold szTAt
      rw [hL x hx]
    have hlen : (p.offsets.eraseIdx idx).length = p.offsets.length - 1 := by
      rw [List.length_eraseIdx]
      simp [hidx]
    have hsz2 : (Cell.size encK encV c).2 = (Cell._serialize encK encV c).length := by
      rw [hszc]
    rw [hsz2] at hps hple
    rw [hps, hoffs, hmc, hlen]
    rw [hsplit, hszoff] at hacct
    omega

end Helpers

section ReachInv

variable {K V : Type} [LinearOrder K] [Inhabited K]
variable (encK : K → List Nat) (encV : V → List Nat)

theorem reach_inv (p : SlottedPage K V) (h : Reach encK encV p) :
    Inv encK encV p := by
  induction h with
  | new pid pt p hp =>
      cases hp
      refine ⟨rfl, List.Pairwise.nil, ?_, ?_, rfl⟩
      · intro o ho
        cases ho
      · intro o ho
        cases ho
  | ins p p' r k v hp hk hins ih => exact insert_preserves_inv encK encV p p' r k v ih hk hins
  | del p p' r k hp hrem ih => exact remove_preserves_inv encK encV p p' r k ih hrem

end ReachInv

/-- C1 amended: along every sequence of operations in which each insert's
    key is absent from the directory at the time of insertion (and any
    non-panicking interleaving of removes), every reachable page has a slot
    directory of pairwise distinct offsets sorted strictly ascending by the
    key of the cell each offset addresses.  (C1 as stated, over arbitrary
    insert sequences, is false: a duplicate-key insert yields two equal
    keys — see the counterexample.) -/
theorem C1_sorted_invariant_distinct_keys {K V : Type} [LinearOrder K] [Inhabited K]
    (encK : K → List Nat) (encV : V → List Nat)
    (p : SlottedPage K V) (h : Reach encK encV p) :
    p.offsets.Nodup ∧
    p.offsets.Pairwise (fun a b => keyAtD p.cells a < keyAtD p.cells b) := by
  obtain ⟨_, hsorted, _, _, _⟩ := reach_inv encK encV p h
  exact ⟨nodup_of_pairwise_lt (keyAtD p.cells) p.offsets hsorted, hsorted⟩

/-! ### Binary search correctness on sorted directories -/

section Search

variable {K V : Type} [LinearOrder K] [Inhabited K]

theorem keyAtD_lookup {m : List (Nat × Cell K V)} {o : Nat} {c : Cell K V}
    (hl : hmLookup m o = some c) : keyAtD m o = c.key := by
  unfold keyAtD
  rw [hl]
  rfl

theorem cellOkB_isSome {encK : K → List Nat} {encV : V → List Nat}
    {m : List (Nat × Cell K V)} {o : Nat} (h : cellOkB encK encV m o = true) :
    (hmLookup m o).isSome := by
  unfold cellOkB at h
  cases hl : hmLookup m o
  · rw [hl] at h
    cases h
  · rfl

theorem sorted_mono (p : SlottedPage K V)
    (hsorted : p.offsets.Pairwise (fun a b => keyAtD p.cells a < keyAtD p.cells b))
    {i j oi oj : Nat} (hij : i < j)
    (hi : p.offsets.get? i = some oi) (hj : p.offsets.get? j = some oj) :
    keyAtD p.cells oi < keyAtD p.cells oj := by
  obtain ⟨hil, hig⟩ := List.get?_eq_some.mp hi
  obtain ⟨hjl, hjg⟩ := List.get?_eq_some.mp hj
  have hmono := List.pairwise_iff_get.mp hsorted ⟨i, hil⟩ ⟨j, hjl⟩ hij
  rwa [hig, hjg] at hmono

theorem fki_loop_spec (p : SlottedPage K V) (k : K)
    (hsorted : p.offsets.Pairwise (fun a b => keyAtD p.cells a < keyAtD p.cells b))
    (hmapped : ∀ o ∈ p.offsets, (hmLookup p.cells o).isSome) :
    ∀ (fuel : Nat) (l : Nat) (r : Int),
      r < p.offsets.length →
      1 ≤ fuel → r - (l : Int) + 2 ≤ (fuel : Int) →
      ((∃ i : Nat, SlottedPage.fki_loop p k fuel l r = .ok (some i) ∧
          l ≤ i ∧ (i : Int) ≤ r ∧
          ∃ off c, p.offsets.get? i = some off ∧ hmLookup p.cells off = some c ∧
            c.key = k) ∨
       (SlottedPage.fki_loop p k fuel l r = .ok none ∧
        ∀ (j : Nat) (off : Nat) (c : Cell K V), l ≤ j → (j : Int) ≤ r →
          p.offsets.get? j = some off → hmLookup p.cells off = some c →
          c.key ≠ k)) := by
  intro fuel
  induction fuel with
  | zero => intro l r _ hf _; omega
  | succ f ih =>
      intro l r hr _ hfuel
      by_cases hlr : (l : Int) ≤ r
      · have hmidlt : (l + r.toNat) / 2 < p.offsets.length := by omega
        have hmidl : l ≤ (l + r.toNat) / 2 := by omega
        have hmidr : ((l + r.toNat) / 2 : Int) ≤ r := by omega
        obtain ⟨off, hoff⟩ : ∃ off, p.offsets.get? ((l + r.toNat) / 2) = some off :=
          ⟨_, List.get?_eq_get hmidlt⟩
        have hmem : off ∈ p.offsets := List.get?_mem hoff
        obtain ⟨c, hlook⟩ := Option.isSome_iff_exists.mp (hmapped off hmem)
        by_cases hk1 : c.key = k
        · have hstep : SlottedPage.fki_loop p k (f + 1) l r
              = .ok (some ((l + r.toNat) / 2)) := by
            simp only [SlottedPage.fki_loop]
            rw [if_pos hlr]
            rw [hoff]
            simp only []
            rw [hlook]
            simp only []
            rw [if_pos hk1]
          exact Or.inl ⟨(l + r.toNat) / 2, hstep, hmidl, hmidr, off, c, hoff, hlook, hk1⟩
        · by_cases hk2 : c.key < k
          · have hstep : SlottedPage.fki_loop p k (f + 1) l r
                = SlottedPage.fki_loop p k f ((l + r.toNat) / 2 + 1) r := by
              simp only [SlottedPage.fki_loop]
              rw [if_pos hlr]
              rw [hoff]
              simp only []
              rw [hlook]
              simp only []
              rw [if_neg hk1, if_pos hk2]
            rw [hstep]
            rcases ih ((l + r.toNat) / 2 + 1) r hr (by omega) (by omega) with
              ⟨i, hli, hil, hir, w⟩ | ⟨hnone, habs⟩
            · exact Or.inl ⟨i, hli, by omega, hir, w⟩
            · refine Or.inr ⟨hnone, ?_⟩
              intro j offj cj hlj hjr hgj hlookj hkeyj
              by_cases hjmid : (l + r.toNat) / 2 + 1 ≤ j
              · exact habs j offj cj hjmid hjr hgj hlookj hkeyj
              · rcases Nat.lt_or_ge j ((l + r.toNat) / 2) with hjlt | hjge
                · have := sorted_mono p hsorted hjlt hgj hoff
                  rw [keyAtD_lookup hlookj, keyAtD_lookup hlook, hkeyj] at this
                  exact absurd (lt_trans this hk2) (lt_irrefl k)
                · have hjeq : j = (l + r.toNat) / 2 := by omega
                  subst hjeq
                  rw [hgj] at hoff
                  cases hoff
                  rw [hlookj] at hlook
                  cases hlook
                  exact hk1 hkeyj
          · have hk3 : k < c.key := lt_of_le_of_ne (not_lt.mp hk2) (Ne.symm hk1)
            have hstep : SlottedPage.fki_loop p k (f + 1) l r
                = SlottedPage.fki_loop p k f l (((l + r.toNat) / 2 : Nat) - 1) := by
              simp only [SlottedPage.fki_loop]
              rw [if_pos hlr]
              rw [hoff]
              simp only []
              rw [hlook]
              simp only []
              rw [if_neg hk1, if_neg hk2]
            rw [hstep]
            rcases ih l (((l + r.toNat) / 2 : Nat) - 1) (by omega) (by omega) (by omega) with
              ⟨i, hli, hil, hir, w⟩ | ⟨hnone, habs⟩
            · exact Or.inl ⟨i, hli, hil, by omega, w⟩
            · refine Or.inr ⟨hnone, ?_⟩
              intro j offj cj hlj hjr hgj hlookj hkeyj
              by_cases hjmid : (j : Int) ≤ ((l + r.toNat) / 2 : Nat) - 1
              · exact habs j offj cj hlj hjmid hgj hlookj hkeyj
              · rcases Nat.lt_or_ge ((l + r.toNat) / 2) j with hjgt | hjle
                · have := sorted_mono p hsorted hjgt hoff hgj
                  rw [keyAtD_lookup hlookj, keyAtD_lookup hlook, hkeyj] at this
                  exact absurd (lt_trans hk3 this) (lt_irrefl k)
                · have hjeq : j = (l + r.toNat) / 2 := by omega
                  subst hjeq
                  rw [hgj] at hoff
                  cases hoff
                  rw [hlookj] at hlook
                  cases hlook
                  exact hk1 hkeyj
      · have hstep : SlottedPage.fki_loop p k (f + 1) l r = .ok none := by
          simp only [SlottedPage.fki_loop]
          rw [if_neg hlr]
        refine Or.inr ⟨hstep, ?_⟩
        intro j _ _ hlj hjr _ _
        omega

theorem find_key_index_spec (p : SlottedPage K V) (k : K)
    (hsorted : p.offsets.Pairwise (fun a b => keyAtD p.cells a < keyAtD p.cells b))
    (hmapped : ∀ o ∈ p.offsets, (hmLookup p.cells o).isSome) :
    (∃ i : Nat, SlottedPage.find_key_index p k = .ok (some i) ∧
      ∃ off c, p.offsets.get? i = some off ∧ hmLookup p.cells off = some c ∧
        c.key = k) ∨
    (SlottedPage.find_key_index p k = .ok none ∧
      ∀ (j : Nat) (off : Nat) (c : Cell K V),
        p.offsets.get? j = some off → hmLookup p.cells off = some c →
        c.key ≠ k) := by
  rcases fki_loop_spec p k hsorted hmapped (p.offsets.length + 2) 0
      ((p.offsets.length : Int) - 1) (by omega) (by omega) (by omega) with
    ⟨i, hloop, _, _, w⟩ | ⟨hloop, habs⟩
  · exact Or.inl ⟨i, hloop, w⟩
  · refine Or.inr ⟨hloop, ?_⟩
    intro j off c hgj hlookj
    have hjlt : j < p.offsets.length := by
      by_contra hcon
      rw [List.get?_eq_none.mpr (by omega)] at hgj
      cases hgj
    exact habs j off c (by omega) (by omega) hgj hlookj

theorem fk_loop_finds (p : SlottedPage K V) (k : K)
    (hsorted : p.offsets.Pairwise (fun a b => keyAtD p.cells a < keyAtD p.cells b))
    (hmapped : ∀ o ∈ p.offsets, (hmLookup p.cells o).isSome)
    (hlen : p.offsets.length ≤ 32768) :
    ∀ (fuel l r : Nat) (res : Option (Cell K V)),
      r < p.offsets.length →
      1 ≤ fuel → r + 2 ≤ fuel + l →
      (∃ j, l ≤ j ∧ j ≤ r ∧ ∃ offj cj, p.offsets.get? j = some offj ∧
        hmLookup p.cells offj = some cj ∧ cj.key = k) →
      ∃ c : Cell K V, SlottedPage.fk_loop p k fuel l r res = .ok (some c) ∧
        c.key = k ∧ ∃ off ∈ p.offsets, hmLookup p.cells off = some c := by
  intro fuel
  induction fuel with
  | zero => intro l r res _ hf _ _; omega
  | succ f ih =>
      intro l r res hr _ hfuel hpres
      obtain ⟨j, hlj, hjr, offj, cj, hgj, hlookj, hkeyj⟩ := hpres
      have hlr : l ≤ r := le_trans hlj hjr
      have hchk : l + r < 65536 := by omega
      have hmidlt : (l + r) / 2 < p.offsets.length := by omega
      have hmidl : l ≤ (l + r) / 2 := by omega
      have hmidr : (l + r) / 2 ≤ r := by omega
      obtain ⟨off, hoff⟩ : ∃ off, p.offsets.get? ((l + r) / 2) = some off :=
        ⟨_, List.get?_eq_get hmidlt⟩
      have hmem : off ∈ p.offsets := List.get?_mem hoff
      obtain ⟨c, hlook⟩ := Option.isSome_iff_exists.mp (hmapped off hmem)
      by_cases hk1 : c.key = k
      · refine ⟨c, ?_, hk1, off, hmem, hlook⟩
        simp only [SlottedPage.fk_loop]
        rw [if_pos hlr]
        simp only [bind, Except.bind, u16chk, if_pos hchk]
        rw [hoff]
        simp only []
        rw [hlook]
        simp only []
        rw [if_pos hk1]
      · by_cases hk2 : c.key < k
        · have hjgt : (l + r) / 2 < j := by
            rcases Nat.lt_or_ge ((l + r) / 2) j with h | h
            · exact h
            · rcases Nat.lt_or_ge j ((l + r) / 2) with h2 | h2
              · have := sorted_mono p hsorted h2 hgj hoff
                rw [keyAtD_lookup hlookj, keyAtD_lookup hlook, hkeyj] at this
                exact absurd (lt_trans this hk2) (lt_irrefl k)
              · have hjeq : j = (l + r) / 2 := by omega
                subst hjeq
                rw [hgj] at hoff
                cases hoff
                rw [hlookj] at hlook
                cases hlook
                exact absurd hkeyj hk1
          have hstep : SlottedPage.fk_loop p k (f + 1) l r res
              = SlottedPage.fk_loop p k f ((l + r) / 2 + 1) r (some c) := by
            simp only [SlottedPage.fk_loop]
            rw [if_pos hlr]
            simp only [bind, Except.bind, u16chk, if_pos hchk]
            rw [hoff]
            simp only []
            rw [hlook]
            simp only []
            rw [if_neg hk1, if_pos hk2]
            simp only [if_pos (show (l + r) / 2 + 1 < 65536 by omega)]
          rw [hstep]
          exact ih ((l + r) / 2 + 1) r (some c) hr (by omega) (by omega)
            ⟨j, by omega, hjr, offj, cj, hgj, hlookj, hkeyj⟩
        · have hk3 : k < c.key := lt_of_le_of_ne (not_lt.mp hk2) (Ne.symm hk1)
          have hjlt : j < (l + r) / 2 := by
            rcases Nat.lt_or_ge j ((l + r) / 2) with h | h
            · exact h
            · rcases Nat.lt_or_ge ((l + r) / 2) j with h2 | h2
              · have := sorted_mono p hsorted h2 hoff hgj
                rw [keyAtD_lookup hlookj, keyAtD_lookup hlook, hkeyj] at this
                exact absurd (lt_trans hk3 this) (lt_irrefl k)
              · have hjeq : j = (l + r) / 2 := by omega
                subst hjeq
                rw [hgj] at hoff
                cases hoff
                rw [hlookj] at hlook
                cases hlook
                exact absurd hkeyj hk1
          have hmid1 : 1 ≤ (l + r) / 2 := by omega
          have hstep : SlottedPage.fk_loop p k (f + 1) l r res
              = SlottedPage.fk_loop p k f l ((l + r) / 2 - 1) res := by
            simp only [SlottedPage.fk_loop]
            rw [if_pos hlr]
            simp only [bind, Except.bind, u16chk, if_pos hchk]
            rw [hoff]
            simp only []
            rw [hlook]
            simp only []
            rw [if_neg hk1, if_neg hk2]
            simp only [u16sub, if_pos hmid1]
          rw [hstep]
          exact ih l ((l + r) / 2 - 1) res (by omega) (by omega) (by omega)
            ⟨j, hlj, by omega, offj, cj, hgj, hlookj, hkeyj⟩

theorem find_key_finds (p : SlottedPage K V) (k : K)
    (hsorted : p.offsets.Pairwise (fun a b => keyAtD p.cells a < keyAtD p.cells b))
    (hmapped : ∀ o ∈ p.offsets, (hmLookup p.cells o).isSome)
    (hlen : p.offsets.length ≤ 32768)
    (hpres : ∃ j offj cj, p.offsets.get? j = some offj ∧
      hmLookup p.cells offj = some cj ∧ cj.key = k) :
    ∃ c : Cell K V, SlottedPage.find_key p k = .ok (some c) ∧ c.key = k ∧
      ∃ off ∈ p.offsets, hmLookup p.cells off = some c := by
  obtain ⟨j, offj, cj, hgj, hlookj, hkeyj⟩ := hpres
  have hjlt : j < p.offsets.length := by
    by_contra hcon
    rw [List.get?_eq_none.mpr (by omega)] at hgj
    cases hgj
  have hlen1 : 1 ≤ p.offsets.length := by omega
  have hwrap : SlottedPage.find_key p k
      = SlottedPage.fk_loop p k (p.offsets.length + 2) 0 (p.offsets.length - 1) none := by
    unfold SlottedPage.find_key
    simp only [bind, Except.bind, u16sub, asU16]
    rw [if_pos (show 1 ≤ p.offsets.length % 65536 by omega)]
    simp only []
    congr 1
    omega
  rw [hwrap]
  exact fk_loop_finds p k hsorted hmapped hlen (p.offsets.length + 2) 0
    (p.offsets.length - 1) none (by omega) (by omega) (by omega)
    ⟨j, by omega, by omega, offj, cj, hgj, hlookj, hkeyj⟩

theorem mem_eraseIdx_of_get?_ne :
    ∀ (l : List Nat) (i j x : Nat), l.get? j = some x → j ≠ i → x ∈ l.eraseIdx i := by
  intro l
  induction l with
  | nil => intro i j x h _; cases h
  | cons a t ih =>
      intro i j x h hne
      cases i with
      | zero =>
          cases j with
          | zero => exact absurd rfl hne
          | succ j' =>
              rw [List.eraseIdx_cons_zero]
              exact List.get?_mem (show t.get? j' = some x from h)
      | succ i' =>
          cases j with
          | zero =>
              cases h
              simp [List.eraseIdx_cons_succ]
          | succ j' =>
              have hmem : x ∈ t.eraseIdx i' :=
                ih i' j' x h (fun hc => hne (by rw [hc]))
              simp [List.eraseIdx_cons_succ, hmem]

section RemoveCompute

variable (encK : K → List Nat) (encV : V → List Nat)

theorem remove_computes_absent (p : SlottedPage K V) (k : K)
    (hfi : SlottedPage.find_key_index p k = .ok none) :
    SlottedPage.remove encK encV p k = .ok (p, .error .noSuchKey) := by
  unfold SlottedPage.remove
  simp only [bind, Except.bind]
  rw [hfi]

theorem remove_computes (p : SlottedPage K V) (k : K) (idx off : Nat) (c : Cell K V)
    (hfi : SlottedPage.find_key_index p k = .ok (some idx))
    (hg : p.offsets.get? idx = some off)
    (hl : hmLookup p.cells off = some c)
    (hsz : asU16 (Cell.size encK encV c).2 + 1 ≤ p.header.page_size) :
    SlottedPage.remove encK encV p k = .ok
      ({ p with
          offsets := p.offsets.eraseIdx idx,
          cells := hmErase p.cells off,
          free_list := p.free_list ++ [(Cell.size encK encV c).2],
          header := { p.header with
            page_size := p.header.page_size - asU16 (Cell.size encK encV c).2 - 1 } },
        .ok ()) := by
  unfold SlottedPage.remove
  simp only [bind, Except.bind]
  rw [hfi]
  simp only []
  rw [hg]
  simp only []
  rw [hl]
  simp only [u16sub]
  rw [if_pos (show asU16 (Cell.size encK encV c).2 ≤ p.header.page_size by omega)]
  simp only []
  rw [if_pos (show 1 ≤ p.header.page_size - asU16 (Cell.size encK encV c).2 by omega)]

theorem pageKeys_mem_dest (p : SlottedPage K V) (k : K)
    (hms : ∀ o ∈ p.offsets, (hmLookup p.cells o).isSome)
    (hk : k ∈ pageKeys p) :
    ∃ (j off : Nat) (c : Cell K V), p.offsets.get? j = some off ∧
      hmLookup p.cells off = some c ∧ c.key = k := by
  obtain ⟨off, hoffmem, hkey⟩ := List.mem_map.mp hk
  obtain ⟨j, hgj⟩ := List.mem_iff_get?.mp hoffmem
  obtain ⟨c, hlook⟩ := Option.isSome_iff_exists.mp (hms off hoffmem)
  refine ⟨j, off, c, hgj, hlook, ?_⟩
  rw [← keyAtD_lookup hlook]
  exact hkey

theorem pageKeys_mem_intro (p : SlottedPage K V) {j off : Nat} {c : Cell K V}
    (hgj : p.offsets.get? j = some off)
    (hlook : hmLookup p.cells off = some c) :
    c.key ∈ pageKeys p :=
  List.mem_map.mpr ⟨off, List.get?_mem hgj, keyAtD_lookup hlook⟩

end RemoveCompute

end Search

/-- C5 amended: on an invariant-satisfying page, Delete(key) returns
    NotFound when the key is absent and leaves the page unchanged; when the
    key is present it removes that key's directory entry (the entry at its
    binary-search index, shifting subsequent entries down) and pushes the
    deleted cell's size alone — not its (offset, size) byte range, see the
    counterexample — onto the free list, leaving every other live cell
    findable through find_key. -/
theorem C5_remove_contract {K V : Type} [LinearOrder K] [Inhabited K]
    (encK : K → List Nat) (encV : V → List Nat)
    (p : SlottedPage K V) (k : K)
    (hInv : Inv encK encV p) (hlen : p.offsets.length ≤ 32768) :
    (k ∉ pageKeys p → SlottedPage.remove encK encV p k = .ok (p, .error .noSuchKey)) ∧
    (k ∈ pageKeys p → ∃ (idx off : Nat) (c : Cell K V) (p' : SlottedPage K V),
      p.offsets.get? idx = some off ∧
      hmLookup p.cells off = some c ∧ c.key = k ∧
      SlottedPage.remove encK encV p k = .ok (p', .ok ()) ∧
      p'.offsets = p.offsets.eraseIdx idx ∧
      p'.cells = hmErase p.cells off ∧
      p'.free_list = p.free_list ++ [(Cell.size encK encV c).2] ∧
      (∀ k' ∈ pageKeys p, k' ≠ k →
        ∃ c' : Cell K V, SlottedPage.find_key p' k' = .ok (some c') ∧ c'.key = k' ∧
          ∃ o ∈ p'.offsets, hmLookup p'.cells o = some c')) := by
  obtain ⟨hfb, hsorted, hmapped, hbound, hacct⟩ := hInv
  have hms : ∀ o ∈ p.offsets, (hmLookup p.cells o).isSome :=
    fun o ho => cellOkB_isSome (hmapped o ho)
  constructor
  · intro habs
    rcases find_key_index_spec p k hsorted hms with
      ⟨i, _, off, c, hg, hl, hkey⟩ | ⟨hfi, _⟩
    · exact absurd (hkey ▸ pageKeys_mem_intro p hg hl) habs
    · exact remove_computes_absent encK encV p k hfi
  · intro hpres
    rcases find_key_index_spec p k hsorted hms with
      ⟨idx, hfi, off, c, hg, hl, hkey⟩ | ⟨_, habs⟩
    swap
    · obtain ⟨j, offj, cj, hgj, hlookj, hkeyj⟩ := pageKeys_mem_dest p k hms hpres
      exact absurd hkeyj (habs j offj cj hgj hlookj)
    have hoffmem : off ∈ p.offsets := List.get?_mem hg
    have hcache : c.cached_size = some ((Cell._serialize encK encV c).length) :=
      cellOk_extract encK encV (hmapped off hoffmem) hl
    have hszc : Cell.size encK encV c = (c, (Cell._serialize encK encV c).length) := by
      unfold Cell.size
      rw [hcache]
    have hidx : idx < p.offsets.length := by
      by_contra hcon
      rw [List.get?_eq_none.mpr (by omega)] at hg
      cases hg
    have hsz : asU16 (Cell.size encK encV c).2 + 1 ≤ p.header.page_size := by
      have hsplit := map_sum_eraseIdx (szTAt encK encV p.cells) p.offsets idx off hg
      have hszoff : szTAt encK encV p.cells off
          = asU16 (Cell._serialize encK encV c).length := by
        unfold szTAt
        rw [hl]
      rw [hszc]
      rw [hsplit, hszoff] at hacct
      simp only
      omega
    have hrem := remove_computes encK encV p k idx off c hfi hg hl hsz
    refine ⟨idx, off, c, _, hg, hl, hkey, hrem, rfl, rfl, rfl, ?_⟩
    intro k' hk' hne
    obtain ⟨hfb2, hsorted2, hmapped2, hbound2, hacct2⟩ :=
      remove_preserves_inv encK encV p _ _ k
        ⟨hfb, hsorted, hmapped, hbound, hacct⟩ hrem
    have hms2 : ∀ o ∈ p.offsets.eraseIdx idx,
        (hmLookup (hmErase p.cells off) o).isSome :=
      fun o ho => cellOkB_isSome (hmapped2 o ho)
    obtain ⟨j', off', c', hgj', hlookj', hkeyj'⟩ := pageKeys_mem_dest p k' hms hk'
    have hj'ne : j' ≠ idx := by
      rintro rfl
      rw [hgj'] at hg
      cases hg
      rw [hlookj'] at hl
      cases hl
      exact hne (by rw [← hkeyj', hkey])
    have hmem2 : off' ∈ p.offsets.eraseIdx idx :=
      mem_eraseIdx_of_get?_ne p.offsets idx j' off' hgj' hj'ne
    have hnd : p.offsets.Nodup := nodup_of_pairwise_lt (keyAtD p.cells) _ hsorted
    have hoffne : off' ≠ off := fun heq =>
      not_mem_eraseIdx_of_nodup p.offsets idx off hnd hg (heq ▸ hmem2)
    obtain ⟨j2, hgj2⟩ := List.mem_iff_get?.mp hmem2
    have hlook2 : hmLookup (hmErase p.cells off) off' = some c' := by
      rw [hmLookup_erase, if_neg hoffne]
      exact hlookj'
    have hlen2 : (p.offsets.eraseIdx idx).length ≤ 32768 :=
      le_trans (List.eraseIdx_sublist p.offsets idx).length_le hlen
    exact find_key_finds _ k' hsorted2 hms2 hlen2
      ⟨j2, off', c', hgj2, hlook2, hkeyj'⟩

/-- C5 witness: the contract applied to the page with keys 1, 3, 5, 6 and
    the absent key 4. -/
theorem C5_witness :
    SlottedPage.remove encNat1 encNat1 pK1356 4 = .ok (pK1356, .error .noSuchKey) :=
  (C5_remove_contract encNat1 encNat1 pK1356 4 (by decide) (by decide)).1 (by decide)

/-- C1 witness: the invariant instantiated on the reachable two-step page
    obtained from a fresh page by inserting key 5 once. -/
theorem C1_witness :
    pDup5a.offsets.Nodup ∧
    pDup5a.offsets.Pairwise (fun a b => keyAtD pDup5a.cells a < keyAtD pDup5a.cells b) :=
  C1_sorted_invariant_distinct_keys encNat1 encNat1 pDup5a
    (Reach.ins pEmptyNat pDup5a (.ok ()) 5 1
      (Reach.new 0 PageType.Leaf pEmptyNat (by decide))
      (by decide) (by decide))

end Burq
